import Mathlib

/-!
Shallow embedding of the graph-search core of `src/App.tsx`: the
`PriorityQueue` binary heap, `breadthFirstSearch`, and `uniformCostSearch`,
together with theorems settling the specification claims about them.

Conventions of the embedding:
* JS numbers are modelled as `Int` (all costs and priorities in scope are
  integers).
* Node references are modelled as `NodeId`s resolved against a store
  (`Graph`, a list of node records), since the JS object graph is cyclic.
* JS `Record` objects are modelled as association lists (`recGet`/`recSet`).
* The heap array always holds defined entries (the source never stores
  `undefined` in `_heap`), so `_heap` is a `List (QueueItem T)` and the
  `MaybeQueueItem` values arising from out-of-bounds reads are `Option`s
  produced by `List.get?`.
* `while` loops are modelled either by well-founded recursion mirroring the
  loop body, or by an explicit fuel parameter where the source loop can
  diverge.
-/

set_option maxRecDepth 4000

namespace AStar

/-- QueueItem of the source: a payload together with its numeric priority
(`weight`). -/
structure QueueItem (T : Type) where
  item : T
  weight : Int
deriving Repr, DecidableEq

namespace PriorityQueue

/-- isGreater of the source: with both arguments present it compares weights
with a strict `>`; with only the first present it returns true; otherwise
false (`childA && childB ? childA.weight > childB.weight : (childA ? true :
false)`). -/
def isGreater {T : Type} (childA childB : Option (QueueItem T)) : Bool :=
  match childA, childB with
  | some a, some b => a.weight > b.weight
  | some _, none => true
  | none, _ => false

/-- swap of the source: exchange the entries at two indices. Both call sites
use in-bounds indices; an out-of-bounds index leaves the list unchanged
(the source would store `undefined` there, a state none of its call sites
reach). -/
def heapSwap {α : Type} (h : List α) (indexA indexB : Nat) : List α :=
  match h.get? indexA, h.get? indexB with
  | some a, some b => (h.set indexA b).set indexB a
  | _, _ => h

/-- Body of the `while` loop of `add`: compare `newItem` against the parent
at `Math.floor(currIndex / 2)` (the source's off-by-one convention, kept
verbatim) and swap upward while strictly greater. Fuel only serves
termination: the index strictly decreases on each iteration, the
self-comparison at index 0 fails at every reachable state (there
`heap[0] = newItem`), and call sites supply `currIndex + 1`, which the
iteration count therefore never exhausts. -/
def siftUp {T : Type} : Nat → List (QueueItem T) → QueueItem T → Nat →
    List (QueueItem T)
  | 0, h, _, _ => h
  | fuel + 1, h, newItem, currIndex =>
    if isGreater (some newItem) (h.get? (currIndex / 2)) then
      siftUp fuel (heapSwap h (currIndex / 2) currIndex) newItem (currIndex / 2)
    else h

/-- add of the source: push `{item, weight: priority}` at the end, then sift
up from the last index (`h1.length = currIndex + 1` is the sift fuel). -/
def add {T : Type} (h : List (QueueItem T)) (element : T) (priority : Int) :
    List (QueueItem T) :=
  let newItem : QueueItem T := ⟨element, priority⟩
  let h1 := h ++ [newItem]
  siftUp h1.length h1 newItem (h1.length - 1)

/-- Body of the `while` loop of `pop`: while either present child (left at
2i+1, right at 2i+2) is strictly greater than the moved `item`, swap with
the left child when `isGreater(left, right)` and with the right child
otherwise, and continue from that position. Fuel only serves termination:
whenever the loop continues, the chosen child index is present (in bounds)
and strictly larger than the current index, so the iteration count is below
the heap length, which call sites supply. -/
def siftDown {T : Type} : Nat → List (QueueItem T) → QueueItem T → Nat →
    List (QueueItem T)
  | 0, h, _, _ => h
  | fuel + 1, h, item, itemIndex =>
    if (isGreater (h.get? (2 * itemIndex + 1)) (some item) ||
        isGreater (h.get? (2 * itemIndex + 2)) (some item)) then
      if isGreater (h.get? (2 * itemIndex + 1)) (h.get? (2 * itemIndex + 2)) then
        siftDown fuel (heapSwap h (2 * itemIndex + 1) itemIndex) item (2 * itemIndex + 1)
      else
        siftDown fuel (heapSwap h (2 * itemIndex + 2) itemIndex) item (2 * itemIndex + 2)
    else h

/-- pop of the source: save the root as the result, remove the last entry,
and if the heap is still non-empty place that entry at the root and sift it
down (with the heap length as sift fuel). Returns the popped payload (or
`none` on an empty queue) together with the updated heap. -/
def pop {T : Type} (h : List (QueueItem T)) :
    Option T × List (QueueItem T) :=
  let result := h.get? 0
  match h.getLast? with
  | none => (result.map (·.item), h.dropLast)
  | some item =>
    let h1 := h.dropLast
    if h1.length = 0 then (result.map (·.item), h1)
    else
      let h2 := h1.set 0 item
      (result.map (·.item), siftDown h2.length h2 item 0)

/-- peek of the source. -/
def peek {T : Type} (h : List (QueueItem T)) : Option (QueueItem T) :=
  h.get? 0

/-- size of the source. -/
def size {T : Type} (h : List (QueueItem T)) : Nat :=
  h.length

/-- Repeatedly pop, collecting the returned payloads, up to `n` times
(stopping early if the queue empties). -/
def popList {T : Type} (n : Nat) (h : List (QueueItem T)) : List T :=
  match n with
  | 0 => []
  | n + 1 =>
    match pop h with
    | (some t, h1) => t :: popList n h1
    | (none, _) => []

/-- Run a list of `add` operations (item, priority) in order, starting from
the given heap. -/
def addAll {T : Type} (h : List (QueueItem T)) (ops : List (T × Int)) :
    List (QueueItem T) :=
  ops.foldl (fun acc op => add acc op.1 op.2) h

/-- Check that the entry at index i (when present) has weight ≥ the entry at
index c (when present). -/
def parentGeChild {T : Type} (h : List (QueueItem T)) (i c : Nat) : Bool :=
  match h.get? i, h.get? c with
  | some p, some ch => p.weight ≥ ch.weight
  | _, _ => true

/-- Max-heap property of the array: every entry is ≥ each of its present
children (children of index i at 2i+1 and 2i+2). -/
def isMaxHeap {T : Type} (h : List (QueueItem T)) : Bool :=
  (List.range h.length).all fun i =>
    parentGeChild h i (2 * i + 1) && parentGeChild h i (2 * i + 2)

end PriorityQueue

/-- NodeId of the source: a numeric identifier. -/
abbrev NodeId := Int

/-- Edge of the source: a directed connection with its own `cost` field and
references to the endpoint nodes (references are modelled as ids, resolved
against the graph store). -/
structure EdgeData where
  cost : Int
  from_node : NodeId
  to_node : NodeId
deriving Repr, DecidableEq

/-- Node of the source: outgoing edges, a render location, an id, and the
cost of entering the node. -/
structure NodeData where
  neighbors : List EdgeData
  location : Int × Int
  id : NodeId
  cost : Int
deriving Repr, DecidableEq

/-- Graph store: the collection of node records, so that node references
(ids) can be dereferenced. -/
abbrev Graph := List NodeData

/-- Dereference a node id against the store (first record with that id). -/
def findNode (g : Graph) (i : NodeId) : Option NodeData :=
  g.find? (fun n => n.id = i)

/-- Lookup in a JS `Record` modelled as an association list: `none` means
the key is absent. -/
def recGet {α : Type} (m : List (NodeId × α)) (k : NodeId) : Option α :=
  match m with
  | [] => none
  | p :: rest => if p.1 = k then some p.2 else recGet rest k

/-- Assignment `m[k] = v` on a JS `Record` modelled as an association list:
replace the binding if present, otherwise append it. -/
def recSet {α : Type} (m : List (NodeId × α)) (k : NodeId) (v : α) :
    List (NodeId × α) :=
  match m with
  | [] => [(k, v)]
  | p :: rest => if p.1 = k then (k, v) :: rest else p :: recSet rest k v

/-- CameFrom map of breadthFirstSearch: `Record<NodeId, Node | null>`; the
value `none` models JS `null` (the start node's sentinel). -/
abbrev BfsCameFrom := List (NodeId × Option NodeId)

/-- Loop state of breadthFirstSearch. The graph store is carried through the
loop so that the frame claim (no node or edge is ever written) is a theorem
about the run rather than a convention. -/
structure BfsState where
  graph : Graph
  frontier : List NodeId
  cameFrom : BfsCameFrom
deriving Repr, DecidableEq

/-- Body of the `forEach` over `currNode.neighbors` in breadthFirstSearch:
for each edge, if the came-from entry of `to_node` is truthy (present and
not null) do nothing, otherwise push `to_node` on the frontier and record
`cameFrom[to_node] = currNode`. -/
def bfsVisitEdges (currId : NodeId) (edges : List EdgeData)
    (frontier : List NodeId) (cameFrom : BfsCameFrom) :
    List NodeId × BfsCameFrom :=
  edges.foldl
    (fun (st : List NodeId × BfsCameFrom) neighbor =>
      let next := neighbor.to_node
      match recGet st.2 next with
      | some (some _) => st
      | _ => (st.1 ++ [next], recSet st.2 next (some currId)))
    (frontier, cameFrom)

/-- Expansion loop of breadthFirstSearch (`while (frontier.length !== 0)`),
with fuel. Returns the final state together with `true` when the loop
exited on its own (frontier empty or end reached) and `false` when the fuel
ran out. -/
def bfsLoop (endId : NodeId) : Nat → BfsState → BfsState × Bool
  | 0, s => (s, false)
  | fuel + 1, s =>
    match s.frontier with
    | [] => (s, true)
    | currId :: rest =>
      if currId = endId then ({ s with frontier := rest }, true)
      else
        let neighbors := ((findNode s.graph currId).map (·.neighbors)).getD []
        let st := bfsVisitEdges currId neighbors rest s.cameFrom
        bfsLoop endId fuel { s with frontier := st.1, cameFrom := st.2 }

/-- Path-reconstruction loop of breadthFirstSearch, with fuel (`none` when
the fuel runs out, which models the source's potential non-termination):
walk `current = cameFrom[current.id] || endNode` until `startNode` is
reached, accumulating the visited references. -/
def bfsReconstructLoop (cameFrom : BfsCameFrom) (startId endId : NodeId) :
    Nat → NodeId → List NodeId → Option (List NodeId)
  | 0, _, _ => none
  | fuel + 1, current, path =>
    if current = startId then some path
    else
      let nxt := match recGet cameFrom current with
        | some (some p) => p
        | _ => endId
      bfsReconstructLoop cameFrom startId endId fuel nxt (path ++ [current])

/-- breadthFirstSearch of the source, with fuel for its two loops. Returns
the reconstructed path (`none` when a loop's fuel ran out) together with
the graph store as the run left it. -/
def breadthFirstSearch (g : Graph) (startId endId : NodeId)
    (fuel rfuel : Nat) : Option (List NodeId) × Graph :=
  let s0 : BfsState := ⟨g, [startId], [(startId, none)]⟩
  let r := bfsLoop endId fuel s0
  if r.2 then
    ((bfsReconstructLoop r.1.cameFrom startId endId rfuel endId []).map
      (fun path => (path ++ [startId]).reverse), r.1.graph)
  else (none, r.1.graph)

/-- NodeAndCost of the source. -/
structure NodeAndCost where
  node : NodeId
  cost : Int
deriving Repr, DecidableEq

/-- CameFrom map of uniformCostSearch. -/
abbrev UcsCameFrom := List (NodeId × NodeAndCost)

/-- Loop state of uniformCostSearch; as in `BfsState` the graph store is
carried through the loop. -/
structure UcsState where
  graph : Graph
  frontier : List (QueueItem NodeId)
  cameFrom : UcsCameFrom
deriving Repr, DecidableEq

/-- Body of the `forEach` over `currNode.neighbors` in uniformCostSearch:
`costWithNeighbor = costToNode + next.cost` (the destination node's own
cost; the edge's `cost` field is not read), skip when the previously
recorded cost is ≤ the candidate (an absent record never compares ≤, like
JS `undefined <= x`), otherwise enqueue `next` at priority `next.cost` and
record `cameFrom[next.id] = {node: currNode, cost: costWithNeighbor}`. -/
def ucsVisitEdges (g : Graph) (currId : NodeId) (costToNode : Int)
    (edges : List EdgeData) (frontier : List (QueueItem NodeId))
    (cameFrom : UcsCameFrom) : List (QueueItem NodeId) × UcsCameFrom :=
  edges.foldl
    (fun (st : List (QueueItem NodeId) × UcsCameFrom) neighbor =>
      let next := neighbor.to_node
      let nextCost := ((findNode g next).map (·.cost)).getD 0
      let costWithNeighbor := costToNode + nextCost
      let skip : Bool := match recGet st.2 next with
        | some prev => prev.cost ≤ costWithNeighbor
        | none => false
      if skip then st
      else (PriorityQueue.add st.1 next nextCost,
        recSet st.2 next ⟨currId, costWithNeighbor⟩))
    (frontier, cameFrom)

/-- Expansion loop of uniformCostSearch (`while (frontier.size() !== 0)`),
with fuel: pop the frontier (falling back to `startNode` on an empty pop,
like the source's `|| startNode`), read `costToNode` from the came-from map
(whose lookup cannot fail in a run started from `initial state`; the source
would throw if it did, modelled by defaulting to 0), and expand the popped
node's edges. -/
def ucsLoop (startId : NodeId) : Nat → UcsState → UcsState × Bool
  | 0, s => (s, false)
  | fuel + 1, s =>
    if s.frontier.length = 0 then (s, true)
    else
      let popped := PriorityQueue.pop s.frontier
      let currId := popped.1.getD startId
      let costToNode := ((recGet s.cameFrom currId).map (·.cost)).getD 0
      let neighbors := ((findNode s.graph currId).map (·.neighbors)).getD []
      let st := ucsVisitEdges s.graph currId costToNode neighbors popped.2 s.cameFrom
      ucsLoop startId fuel { s with frontier := st.1, cameFrom := st.2 }

/-- Path-reconstruction loop of uniformCostSearch, with fuel: starting from
`cameFrom[endNode.id]`, while the current record exists and its `node`
field is not `startNode`, push the record and move to
`cameFrom[current.node.id]`. -/
def ucsReconstructLoop (cameFrom : UcsCameFrom) (startId : NodeId) :
    Nat → Option NodeAndCost → List NodeAndCost → Option (List NodeAndCost)
  | 0, _, _ => none
  | fuel + 1, current, path =>
    match current with
    | none => some path
    | some nc =>
      if nc.node = startId then some path
      else ucsReconstructLoop cameFrom startId fuel (recGet cameFrom nc.node)
        (path ++ [nc])

/-- uniformCostSearch of the source, with fuel for its two loops: frontier
initialised with `add(startNode, 0)`, came-from map with
`{startNode.id: {node: startNode, cost: 0}}`; after the expansion loop the
path is reconstructed and `{node: startNode, cost: 0}` appended before
reversal. Returns the path (`none` when a loop's fuel ran out) together
with the graph store as the run left it. -/
def uniformCostSearch (g : Graph) (startId endId : NodeId)
    (fuel rfuel : Nat) : Option (List NodeAndCost) × Graph :=
  let s0 : UcsState := ⟨g, PriorityQueue.add [] startId 0, [(startId, ⟨startId, 0⟩)]⟩
  let r := ucsLoop startId fuel s0
  if r.2 then
    ((ucsReconstructLoop r.1.cameFrom startId rfuel (recGet r.1.cameFrom endId) []).map
      (fun path => (path ++ [⟨startId, 0⟩]).reverse), r.1.graph)
  else (none, r.1.graph)

namespace PriorityQueue

/-- Sift-up as the spec describes it (for comparison with `siftUp`, which is
translated from the source): the parent of index i is at floor((i-1)/2),
the convention consistent with children at 2i+1 and 2i+2. Fuelled like
`siftUp`. -/
def siftUpSpecParent {T : Type} : Nat → List (QueueItem T) → QueueItem T →
    Nat → List (QueueItem T)
  | 0, h, _, _ => h
  | fuel + 1, h, newItem, currIndex =>
    if isGreater (some newItem) (h.get? ((currIndex - 1) / 2)) then
      siftUpSpecParent fuel (heapSwap h ((currIndex - 1) / 2) currIndex)
        newItem ((currIndex - 1) / 2)
    else h

/-- add as the spec describes it: like `add` but sifting up against the
parent at floor((i-1)/2). -/
def addSpecParent {T : Type} (h : List (QueueItem T)) (element : T)
    (priority : Int) : List (QueueItem T) :=
  let newItem : QueueItem T := ⟨element, priority⟩
  let h1 := h ++ [newItem]
  siftUpSpecParent h1.length h1 newItem (h1.length - 1)

/-- Sift-down as the spec describes it (for comparison with `siftDown`,
which is translated from the source): a tie between two present children of
equal weight favours the left child, so the swap goes right only when the
right child is strictly greater than the left. Fuelled like `siftDown`. -/
def siftDownLeftTie {T : Type} : Nat → List (QueueItem T) → QueueItem T →
    Nat → List (QueueItem T)
  | 0, h, _, _ => h
  | fuel + 1, h, item, itemIndex =>
    if (isGreater (h.get? (2 * itemIndex + 1)) (some item) ||
        isGreater (h.get? (2 * itemIndex + 2)) (some item)) then
      if isGreater (h.get? (2 * itemIndex + 2)) (h.get? (2 * itemIndex + 1)) then
        siftDownLeftTie fuel (heapSwap h (2 * itemIndex + 2) itemIndex) item
          (2 * itemIndex + 2)
      else
        siftDownLeftTie fuel (heapSwap h (2 * itemIndex + 1) itemIndex) item
          (2 * itemIndex + 1)
    else h

/-- pop with the spec-described tie rule: like `pop` but sifting down with
`siftDownLeftTie`. -/
def popLeftTie {T : Type} (h : List (QueueItem T)) :
    Option T × List (QueueItem T) :=
  let result := h.get? 0
  match h.getLast? with
  | none => (result.map (·.item), h.dropLast)
  | some item =>
    let h1 := h.dropLast
    if h1.length = 0 then (result.map (·.item), h1)
    else
      let h2 := h1.set 0 item
      (result.map (·.item), siftDownLeftTie h2.length h2 item 0)

/-- Strictly descending order of a list of priorities. -/
def strictDesc : List Int → Bool
  | [] => true
  | [_] => true
  | a :: b :: rest => decide (a > b) && strictDesc (b :: rest)

end PriorityQueue

/-- Edges agree except possibly in their `cost` field. -/
def edgeSimB (e1 e2 : EdgeData) : Bool :=
  decide (e1.from_node = e2.from_node) && decide (e1.to_node = e2.to_node)

/-- Edge lists agree pointwise except possibly in edge `cost` fields. -/
def edgesSimB : List EdgeData → List EdgeData → Bool
  | [], [] => true
  | e1 :: r1, e2 :: r2 => edgeSimB e1 e2 && edgesSimB r1 r2
  | _, _ => false

/-- Nodes agree in id, cost and location, with neighbour lists agreeing
except possibly in edge `cost` fields. -/
def nodeSimB (n1 n2 : NodeData) : Bool :=
  decide (n1.id = n2.id) && decide (n1.cost = n2.cost) &&
    decide (n1.location = n2.location) && edgesSimB n1.neighbors n2.neighbors

/-- Graphs identical except possibly for the `cost` fields stored on their
edges. -/
def graphSimB : Graph → Graph → Bool
  | [], [] => true
  | n1 :: r1, n2 :: r2 => nodeSimB n1 n2 && graphSimB r1 r2
  | _, _ => false

/-- Edge construction helper for the concrete test graphs. -/
def mkEdge (c : Int) (f t : NodeId) : EdgeData :=
  ⟨c, f, t⟩

/-- Three-node chain 1 → 2 → 3, every node of cost 1 (edge costs mirror the
grid builder: the from-node's cost). -/
def chainG : Graph :=
  [⟨[mkEdge 1 1 2], (0, 0), 1, 1⟩,
   ⟨[mkEdge 1 2 3], (0, 1), 2, 1⟩,
   ⟨[], (0, 2), 3, 1⟩]

/-- The chain graph with different costs stored on its edges (nodes and
edge endpoints unchanged). -/
def chainGEdgeCosts : Graph :=
  [⟨[mkEdge 7 1 2], (0, 0), 1, 1⟩,
   ⟨[mkEdge 99 2 3], (0, 1), 2, 1⟩,
   ⟨[], (0, 2), 3, 1⟩]

/-- Two isolated nodes 1 and 2: node 2 is unreachable from node 1. -/
def discG : Graph :=
  [⟨[], (0, 0), 1, 1⟩, ⟨[], (0, 1), 2, 1⟩]

/-- Two-cycle 1 ↔ 2 plus an isolated node 3. -/
def cycG : Graph :=
  [⟨[mkEdge 1 1 2], (0, 0), 1, 1⟩,
   ⟨[mkEdge 1 2 1], (0, 1), 2, 1⟩,
   ⟨[], (0, 2), 3, 1⟩]

/-- Star: node 1 with edges to node 2 (cost 1) and node 3 (cost 5). -/
def starG : Graph :=
  [⟨[mkEdge 1 1 2, mkEdge 1 1 3], (0, 0), 1, 1⟩,
   ⟨[], (0, 1), 2, 1⟩,
   ⟨[], (0, 2), 3, 5⟩]

theorem recGet_recSet_ne {α : Type} (m : List (NodeId × α)) (k id : NodeId)
    (v : α) (hne : k ≠ id) : recGet (recSet m k v) id = recGet m id := by
  induction m with
  | nil => simp [recSet, recGet, hne]
  | cons p rest ih =>
    by_cases hp : p.1 = k
    · simp [recSet, recGet, hp, hne]
    · simp [recSet, recGet, hp, ih]

theorem bfsVisitEdges_preserves (currId : NodeId) (edges : List EdgeData) :
    ∀ (fr : List NodeId) (cf : BfsCameFrom) (id p : NodeId),
    recGet cf id = some (some p) →
    recGet (bfsVisitEdges currId edges fr cf).2 id = some (some p) := by
  induction edges with
  | nil =>
    intro fr cf id p hp
    simpa [bfsVisitEdges] using hp
  | cons e rest ih =>
    intro fr cf id p hp
    simp only [bfsVisitEdges, List.foldl_cons]
    cases hnext : recGet cf e.to_node with
    | some o =>
      cases o with
      | some q =>
        simp only [hnext]
        exact ih fr cf id p hp
      | none =>
        simp only [hnext]
        have hne : e.to_node ≠ id := by
          intro hcontra
          rw [hcontra, hp] at hnext
          exact Option.noConfusion (Option.some.inj hnext)
        exact ih _ _ id p (by rw [recGet_recSet_ne _ _ _ _ hne]; exact hp)
    | none =>
      simp only [hnext]
      have hne : e.to_node ≠ id := by
        intro hcontra
        rw [hcontra, hp] at hnext
        exact Option.noConfusion hnext
      exact ih _ _ id p (by rw [recGet_recSet_ne _ _ _ _ hne]; exact hp)

theorem bfsLoop_preserves (endId : NodeId) :
    ∀ (fuel : Nat) (s : BfsState) (id p : NodeId),
    recGet s.cameFrom id = some (some p) →
    recGet (bfsLoop endId fuel s).1.cameFrom id = some (some p) := by
  intro fuel
  induction fuel with
  | zero =>
    intro s id p hp
    simpa [bfsLoop] using hp
  | succ n ih =>
    intro s id p hp
    obtain ⟨g, fr, cf⟩ := s
    cases fr with
    | nil => simpa [bfsLoop] using hp
    | cons currId rest =>
      by_cases he : currId = endId
      · simpa [bfsLoop, he] using hp
      · simp only [bfsLoop, he, if_false]
        exact ih _ id p (bfsVisitEdges_preserves currId _ rest cf id p hp)

theorem bfsLoop_graph (endId : NodeId) :
    ∀ (fuel : Nat) (s : BfsState), (bfsLoop endId fuel s).1.graph = s.graph := by
  intro fuel
  induction fuel with
  | zero => intro s; rfl
  | succ n ih =>
    intro s
    obtain ⟨g, fr, cf⟩ := s
    cases fr with
    | nil => rfl
    | cons currId rest =>
      by_cases he : currId = endId
      · simp [bfsLoop, he]
      · simp only [bfsLoop, he, if_false]
        exact ih _

theorem ucsLoop_graph (startId : NodeId) :
    ∀ (fuel : Nat) (s : UcsState), (ucsLoop startId fuel s).1.graph = s.graph := by
  intro fuel
  induction fuel with
  | zero => intro s; rfl
  | succ n ih =>
    intro s
    by_cases hf : s.frontier.length = 0
    · simp [ucsLoop, hf]
    · simp only [ucsLoop, hf, if_false]
      exact ih _

theorem bfsReconstructLoop_discG_none :
    ∀ (fuel : Nat) (acc : List NodeId),
    bfsReconstructLoop [(1, none)] 1 2 fuel 2 acc = none := by
  intro fuel
  induction fuel with
  | zero => intro acc; rfl
  | succ n ih =>
    intro acc
    simp only [bfsReconstructLoop, recGet]
    norm_num
    exact ih _

/-- C1: on the chain 1 → 2 → 3 with endNode 3 reachable from startNode 1,
breadthFirstSearch returns [1, 2, 3] (start first, end last, as claimed),
but uniformCostSearch returns [{node 1, cost 0}, {node 2, cost 2}]: its
last element is node 2, the predecessor of the end node, not the end node 3
— the reconstruction pushes the came-from records, whose `node` field is
the predecessor. -/
theorem claim_C1 :
    (breadthFirstSearch chainG 1 3 10 10).1 = some [1, 2, 3] ∧
    (uniformCostSearch chainG 1 3 10 10).1 = some [⟨1, 0⟩, ⟨2, 2⟩] ∧
    (((uniformCostSearch chainG 1 3 10 10).1.getD []).getLast?).map (·.node) =
      some 2 ∧
    (2 : NodeId) ≠ 3 := by
  refine ⟨by decide, by decide, by decide, by decide⟩

/-- C2: expanding the start node of the star graph (edges to node 2 of cost
1 and node 3 of cost 5), uniformCostSearch enqueues each neighbour at
priority `next.cost` — node 3 enters the frontier with weight 5 although
its cumulative cost is 5, whose negation would be −5 — and the next pop
returns node 3, the neighbour with the HIGHER cumulative cost. -/
theorem claim_C2 :
    (ucsLoop 1 1 ⟨starG, PriorityQueue.add [] 1 0, [(1, ⟨1, 0⟩)]⟩).1.frontier =
      [⟨3, 5⟩, ⟨2, 1⟩] ∧
    recGet (ucsLoop 1 1 ⟨starG, PriorityQueue.add [] 1 0, [(1, ⟨1, 0⟩)]⟩).1.cameFrom 3 =
      some ⟨1, 5⟩ ∧
    ((5 : Int) ≠ -5) ∧
    (PriorityQueue.pop
      (ucsLoop 1 1 ⟨starG, PriorityQueue.add [] 1 0, [(1, ⟨1, 0⟩)]⟩).1.frontier).1 =
      some 3 := by
  refine ⟨by decide, by decide, by decide, by decide⟩

/-- C3: on two isolated nodes 1 and 2 (so 2 is unreachable from 1),
breadthFirstSearch never returns a result for any reconstruction fuel (the
source's reconstruction loop runs forever through the `|| endNode`
fallback), and uniformCostSearch returns the fabricated one-element path
[{node 1, cost 0}] — neither is an explicit "no path" result. -/
theorem claim_C3 :
    (∀ rfuel : Nat, (breadthFirstSearch discG 1 2 10 rfuel).1 = none) ∧
    (uniformCostSearch discG 1 2 10 10).1 = some [⟨1, 0⟩] := by
  constructor
  · intro rfuel
    show ((bfsReconstructLoop [(1, none)] 1 2 rfuel 2 []).map
      (fun path => (path ++ [1]).reverse), discG).1 = none
    rw [bfsReconstructLoop_discG_none]
    rfl
  · decide

/-- C4 counterexample: on the two-cycle 1 ↔ 2 (searching for the isolated
node 3), the start node 1 — whose came-from entry is the null sentinel,
which the truthiness guard treats as absent — is re-enqueued after being
dequeued (the frontier again holds [1] after two iterations), and its
came-from entry, initialised to null, ends the run overwritten to node 2. -/
theorem claim_C4_counterexample :
    bfsLoop 3 2 ⟨cycG, [1], [(1, none)]⟩ =
      (⟨cycG, [1], [(1, some 2), (2, some 1)]⟩, false) ∧
    (bfsLoop 3 10 ⟨cycG, [1], [(1, none)]⟩).1.cameFrom =
      [(1, some 2), (2, some 1)] := by
  refine ⟨by decide, by decide⟩

/-- C4 (amended): in every run of the breadthFirstSearch expansion loop, a
came-from entry that holds a node (is non-null, hence truthy) is never
overwritten; only the start node's null entry can be overwritten and only
the start node can be re-enqueued after discovery. -/
theorem claim_C4 (endId : NodeId) (fuel : Nat) (s : BfsState) (id p : NodeId)
    (hp : recGet s.cameFrom id = some (some p)) :
    recGet (bfsLoop endId fuel s).1.cameFrom id = some (some p) :=
  bfsLoop_preserves endId fuel s id p hp

/-- C4 witness: the amended preservation theorem applied on the two-cycle
graph to the non-null entry recorded for node 2. -/
theorem claim_C4_witness :
    recGet ([(1, none), (2, some 1)] : BfsCameFrom) 2 = some (some 1) ∧
    recGet (bfsLoop 3 5 ⟨cycG, [2], [(1, none), (2, some 1)]⟩).1.cameFrom 2 =
      some (some 1) :=
  ⟨by decide, claim_C4 3 5 ⟨cycG, [2], [(1, none), (2, some 1)]⟩ 2 1 (by decide)⟩

/-- C5: seven adds with priorities [0, 1, 1, 1, 0, 0, 1] leave the internal
array as weights [1, 1, 0, 1, 0, 0, 1], which violates the max-heap
property: the entry at index 2 has weight 0 while its child at index 6 has
weight 1 (the final add at index 6 sifted against floor(6/2) = 3 instead of
the true parent floor((6−1)/2) = 2). -/
theorem claim_C5 :
    PriorityQueue.addAll ([] : List (QueueItem Int))
      [(0, 0), (1, 1), (2, 1), (3, 1), (4, 0), (5, 0), (6, 1)] =
      [⟨1, 1⟩, ⟨2, 1⟩, ⟨0, 0⟩, ⟨3, 1⟩, ⟨4, 0⟩, ⟨5, 0⟩, ⟨6, 1⟩] ∧
    PriorityQueue.isMaxHeap
      ([⟨1, 1⟩, ⟨2, 1⟩, ⟨0, 0⟩, ⟨3, 1⟩, ⟨4, 0⟩, ⟨5, 0⟩, ⟨6, 1⟩] :
        List (QueueItem Int)) = false := by
  refine ⟨by decide, by decide⟩

/-- C6: adding priorities 10, 1, 5 in that order, the source's add (parent
at floor(i/2)) produces the array [10, 5, 1] — the new entry at index 2 is
compared against index 1 and swapped — whereas the spec-described add
(parent at floor((i−1)/2)) produces [10, 1, 5], comparing index 2 against
its true parent, index 0. -/
theorem claim_C6 :
    PriorityQueue.addAll ([] : List (QueueItem Int)) [(0, 10), (1, 1), (2, 5)] =
      [⟨0, 10⟩, ⟨2, 5⟩, ⟨1, 1⟩] ∧
    PriorityQueue.addSpecParent (PriorityQueue.addSpecParent
      (PriorityQueue.addSpecParent ([] : List (QueueItem Int)) 0 10) 1 1) 2 5 =
      [⟨0, 10⟩, ⟨1, 1⟩, ⟨2, 5⟩] ∧
    ([⟨0, 10⟩, ⟨2, 5⟩, ⟨1, 1⟩] : List (QueueItem Int)) ≠
      [⟨0, 10⟩, ⟨1, 1⟩, ⟨2, 5⟩] := by
  refine ⟨by decide, by decide, by decide⟩

/-- C7: ten adds with pairwise-distinct priorities 0, 6, 7, 8, 1, 2, 9, 3,
4, 5 followed by ten pops yield the items in order 9, 8, 7, 5, 6, 4, 3, 2,
1, 0 — item 5 is popped before item 6, so the order is not strictly
descending. -/
theorem claim_C7 :
    PriorityQueue.popList 10 (PriorityQueue.addAll ([] : List (QueueItem Int))
      (([0, 6, 7, 8, 1, 2, 9, 3, 4, 5] : List Int).map (fun k => (k, k)))) =
      [9, 8, 7, 5, 6, 4, 3, 2, 1, 0] ∧
    PriorityQueue.strictDesc [9, 8, 7, 5, 6, 4, 3, 2, 1, 0] = false := by
  refine ⟨by decide, by decide⟩

/-- C8 counterexample: popping the heap built by adds of priorities 9, 4,
4, 1 sifts the moved item 3 down against two present children of equal
weight 4 and swaps with the RIGHT child (item 2 at index 2), yielding
[⟨2,4⟩, ⟨1,4⟩, ⟨3,1⟩]; the spec-described left-favouring tie rule would
swap with the left child, yielding [⟨1,4⟩, ⟨3,1⟩, ⟨2,4⟩]. -/
theorem claim_C8_counterexample :
    PriorityQueue.pop (PriorityQueue.addAll ([] : List (QueueItem Int))
      [(0, 9), (1, 4), (2, 4), (3, 1)]) =
      (some 0, [⟨2, 4⟩, ⟨1, 4⟩, ⟨3, 1⟩]) ∧
    PriorityQueue.popLeftTie (PriorityQueue.addAll ([] : List (QueueItem Int))
      [(0, 9), (1, 4), (2, 4), (3, 1)]) =
      (some 0, [⟨1, 4⟩, ⟨3, 1⟩, ⟨2, 4⟩]) ∧
    ((some (0 : Int), [(⟨2, 4⟩ : QueueItem Int), ⟨1, 4⟩, ⟨3, 1⟩]) ≠
      (some (0 : Int), [(⟨1, 4⟩ : QueueItem Int), ⟨3, 1⟩, ⟨2, 4⟩])) := by
  refine ⟨by decide, by decide, by decide⟩

/-- C8 (amended): during pop's sift-down with both children present and at
least one strictly greater than the moved item, the swap goes to the left
child exactly when its weight strictly exceeds the right child's, otherwise
to the right child — in particular, when the two children have equal
weights the RIGHT child (index 2i+2) is chosen. -/
theorem claim_C8 {T : Type} (h : List (QueueItem T)) (item L R : QueueItem T)
    (i fuel : Nat) (hL : h.get? (2 * i + 1) = some L)
    (hR : h.get? (2 * i + 2) = some R)
    (hgt : (PriorityQueue.isGreater (some L) (some item) ||
      PriorityQueue.isGreater (some R) (some item)) = true) :
    PriorityQueue.siftDown (fuel + 1) h item i =
      PriorityQueue.siftDown fuel
        (PriorityQueue.heapSwap h
          (if L.weight > R.weight then 2 * i + 1 else 2 * i + 2) i)
        item (if L.weight > R.weight then 2 * i + 1 else 2 * i + 2) ∧
    (L.weight = R.weight →
      (if L.weight > R.weight then 2 * i + 1 else 2 * i + 2) = 2 * i + 2) := by
  have hc : (PriorityQueue.isGreater (h.get? (2 * i + 1)) (some item) ||
      PriorityQueue.isGreater (h.get? (2 * i + 2)) (some item)) = true := by
    rw [hL, hR]; exact hgt
  constructor
  · by_cases hw : L.weight > R.weight
    · have hg : PriorityQueue.isGreater (h.get? (2 * i + 1)) (h.get? (2 * i + 2)) = true := by
        rw [hL, hR]; simp [PriorityQueue.isGreater, hw]
      simp only [PriorityQueue.siftDown]
      rw [if_pos hc, if_pos hg, if_pos hw]
    · have hg : ¬ PriorityQueue.isGreater (h.get? (2 * i + 1)) (h.get? (2 * i + 2)) = true := by
        rw [hL, hR]; simp [PriorityQueue.isGreater, hw]
      simp only [PriorityQueue.siftDown]
      rw [if_pos hc, if_neg hg, if_neg hw]
  · intro heq
    simp [heq]

/-- C8 witness: the amended sift-down rule applied to the concrete heap
[⟨3,1⟩, ⟨1,4⟩, ⟨2,4⟩] with moved item ⟨3,1⟩ at the root and equal-weight
children. -/
theorem claim_C8_witness :
    PriorityQueue.siftDown 3 [⟨3, 1⟩, ⟨1, 4⟩, (⟨2, 4⟩ : QueueItem Int)] ⟨3, 1⟩ 0 =
      PriorityQueue.siftDown 2
        (PriorityQueue.heapSwap [⟨3, 1⟩, ⟨1, 4⟩, (⟨2, 4⟩ : QueueItem Int)]
          (if (4 : Int) > 4 then 2 * 0 + 1 else 2 * 0 + 2) 0)
        ⟨3, 1⟩ (if (4 : Int) > 4 then 2 * 0 + 1 else 2 * 0 + 2) ∧
    ((4 : Int) = 4 →
      (if (4 : Int) > 4 then 2 * 0 + 1 else 2 * 0 + 2) = 2 * 0 + 2) :=
  claim_C8 [⟨3, 1⟩, ⟨1, 4⟩, ⟨2, 4⟩] ⟨3, 1⟩ ⟨1, 4⟩ ⟨2, 4⟩ 0 2 (by decide)
    (by decide) (by decide)

theorem edgeSimB_to_node {e1 e2 : EdgeData} (h : edgeSimB e1 e2 = true) :
    e1.to_node = e2.to_node := by
  simp only [edgeSimB, Bool.and_eq_true, decide_eq_true_eq] at h
  exact h.2

theorem nodeSimB_parts {n1 n2 : NodeData} (h : nodeSimB n1 n2 = true) :
    n1.id = n2.id ∧ n1.cost = n2.cost ∧
      edgesSimB n1.neighbors n2.neighbors = true := by
  simp only [nodeSimB, Bool.and_eq_true, decide_eq_true_eq] at h
  exact ⟨h.1.1.1, h.1.1.2, h.2⟩

theorem findNode_sim : ∀ (g1 g2 : Graph), graphSimB g1 g2 = true →
    ∀ i : NodeId,
    (findNode g1 i = none ∧ findNode g2 i = none) ∨
    ∃ n1 n2, findNode g1 i = some n1 ∧ findNode g2 i = some n2 ∧
      nodeSimB n1 n2 = true := by
  intro g1
  induction g1 with
  | nil =>
    intro g2 hg i
    cases g2 with
    | nil => exact Or.inl ⟨rfl, rfl⟩
    | cons n2 r2 => simp [graphSimB] at hg
  | cons n1 r1 ih =>
    intro g2 hg i
    cases g2 with
    | nil => simp [graphSimB] at hg
    | cons n2 r2 =>
      have hparts : nodeSimB n1 n2 = true ∧ graphSimB r1 r2 = true := by
        simpa [graphSimB, Bool.and_eq_true] using hg
      have hid : n1.id = n2.id := (nodeSimB_parts hparts.1).1
      by_cases hi : n1.id = i
      · refine Or.inr ⟨n1, n2, ?_, ?_, hparts.1⟩
        · unfold findNode
          rw [List.find?_cons_of_pos _ (by simp [hi])]
        · unfold findNode
          rw [List.find?_cons_of_pos _ (by simp [← hid, hi])]
      · have hi2 : ¬ n2.id = i := by rw [← hid]; exact hi
        have h1 : findNode (n1 :: r1) i = findNode r1 i := by
          unfold findNode
          rw [List.find?_cons_of_neg _ (by simp [hi])]
        have h2 : findNode (n2 :: r2) i = findNode r2 i := by
          unfold findNode
          rw [List.find?_cons_of_neg _ (by simp [hi2])]
        rw [h1, h2]
        exact ih r2 hparts.2 i

theorem findNode_cost_sim {g1 g2 : Graph} (hg : graphSimB g1 g2 = true)
    (i : NodeId) :
    ((findNode g1 i).map (·.cost)).getD 0 =
      ((findNode g2 i).map (·.cost)).getD 0 := by
  rcases findNode_sim g1 g2 hg i with ⟨h1, h2⟩ | ⟨n1, n2, h1, h2, hsim⟩
  · rw [h1, h2]
  · rw [h1, h2]
    simp [(nodeSimB_parts hsim).2.1]

theorem findNode_neighbors_sim {g1 g2 : Graph} (hg : graphSimB g1 g2 = true)
    (i : NodeId) :
    edgesSimB (((findNode g1 i).map (·.neighbors)).getD [])
      (((findNode g2 i).map (·.neighbors)).getD []) = true := by
  rcases findNode_sim g1 g2 hg i with ⟨h1, h2⟩ | ⟨n1, n2, h1, h2, hsim⟩
  · rw [h1, h2]
    rfl
  · rw [h1, h2]
    simpa using (nodeSimB_parts hsim).2.2

theorem ucsVisitEdges_sim {g1 g2 : Graph} (hg : graphSimB g1 g2 = true) :
    ∀ (es1 es2 : List EdgeData), edgesSimB es1 es2 = true →
    ∀ (currId : NodeId) (costTo : Int) (fr : List (QueueItem NodeId))
      (cf : UcsCameFrom),
    ucsVisitEdges g1 currId costTo es1 fr cf =
      ucsVisitEdges g2 currId costTo es2 fr cf := by
  intro es1
  induction es1 with
  | nil =>
    intro es2 he currId costTo fr cf
    cases es2 with
    | nil => rfl
    | cons e2 r2 => simp [edgesSimB] at he
  | cons e1 r1 ih =>
    intro es2 he currId costTo fr cf
    cases es2 with
    | nil => simp [edgesSimB] at he
    | cons e2 r2 =>
      have hparts : edgeSimB e1 e2 = true ∧ edgesSimB r1 r2 = true := by
        simpa [edgesSimB, Bool.and_eq_true] using he
      have ht : e1.to_node = e2.to_node := edgeSimB_to_node hparts.1
      have hcost2 : ((findNode g1 e2.to_node).map (·.cost)).getD 0 =
          ((findNode g2 e2.to_node).map (·.cost)).getD 0 :=
        findNode_cost_sim hg _
      simp only [ucsVisitEdges, List.foldl_cons]
      rw [ht, hcost2]
      exact ih r2 hparts.2 currId costTo _ _

theorem ucsLoop_sim {g1 g2 : Graph} (hg : graphSimB g1 g2 = true)
    (startId : NodeId) :
    ∀ (fuel : Nat) (fr : List (QueueItem NodeId)) (cf : UcsCameFrom),
    (ucsLoop startId fuel ⟨g1, fr, cf⟩).1.frontier =
      (ucsLoop startId fuel ⟨g2, fr, cf⟩).1.frontier ∧
    (ucsLoop startId fuel ⟨g1, fr, cf⟩).1.cameFrom =
      (ucsLoop startId fuel ⟨g2, fr, cf⟩).1.cameFrom ∧
    (ucsLoop startId fuel ⟨g1, fr, cf⟩).2 =
      (ucsLoop startId fuel ⟨g2, fr, cf⟩).2 := by
  intro fuel
  induction fuel with
  | zero => intro fr cf; exact ⟨rfl, rfl, rfl⟩
  | succ n ih =>
    intro fr cf
    by_cases hf : fr.length = 0
    · simp [ucsLoop, hf]
    · have hnb : edgesSimB
          (((findNode g1 ((PriorityQueue.pop fr).1.getD startId)).map
            (·.neighbors)).getD [])
          (((findNode g2 ((PriorityQueue.pop fr).1.getD startId)).map
            (·.neighbors)).getD []) = true :=
        findNode_neighbors_sim hg _
      simp only [ucsLoop, hf, if_neg, if_false]
      rw [ucsVisitEdges_sim hg _ _ hnb]
      exact ih _ _

/-- C9: uniformCostSearch returns identical paths on any two graphs that
agree except for the `cost` fields stored on their edges: the cost
arithmetic reads only the destination node's own `cost` field and the
edge's stored cost is never read. -/
theorem claim_C9 (g1 g2 : Graph) (hsim : graphSimB g1 g2 = true)
    (startId endId : NodeId) (fuel rfuel : Nat) :
    (uniformCostSearch g1 startId endId fuel rfuel).1 =
      (uniformCostSearch g2 startId endId fuel rfuel).1 := by
  obtain ⟨hfr, hcf, hdone⟩ := ucsLoop_sim hsim startId fuel
    (PriorityQueue.add [] startId 0) [(startId, ⟨startId, 0⟩)]
  simp only [uniformCostSearch]
  rw [hdone, hcf]
  cases hb : (ucsLoop startId fuel
      ⟨g2, PriorityQueue.add [] startId 0, [(startId, ⟨startId, 0⟩)]⟩).2 <;>
    simp [hb]

/-- C9 witness: the congruence applied to the chain graph and its copy with
different edge costs (7 and 99 instead of 1 and 1). -/
theorem claim_C9_witness :
    graphSimB chainG chainGEdgeCosts = true ∧
    (uniformCostSearch chainG 1 3 10 10).1 =
      (uniformCostSearch chainGEdgeCosts 1 3 10 10).1 :=
  ⟨by decide, claim_C9 chainG chainGEdgeCosts (by decide) 1 3 10 10⟩

/-- C10: neither search mutates the graph store: the graph component
threaded through every loop iteration and returned alongside the result is
the input graph, for every input and any fuel. -/
theorem claim_C10 (g : Graph) (startId endId : NodeId) (fuel rfuel : Nat) :
    (breadthFirstSearch g startId endId fuel rfuel).2 = g ∧
    (uniformCostSearch g startId endId fuel rfuel).2 = g := by
  constructor
  · simp only [breadthFirstSearch]
    split <;> simp [bfsLoop_graph]
  · simp only [uniformCostSearch]
    split <;> simp [ucsLoop_graph]

end AStar
